import Mathlib

/-!
# Verification of the adaptive-bbsb-trainer scheduling core and utilities

Shallow embedding of the adaptive drill trainer's data model and operations.

* `filterScenarios` is translated from `src/unnamed/part_001` (the scenario
  filtering utility).
* `loadSessionFromLocalStorage` is translated from
  `src/src/utils/sessionPersistence.ts`, with the browser's `localStorage`
  read and `JSON.parse` passed in as explicit inputs and JavaScript value
  semantics (truthiness, property access, `typeof`) made explicit.
* The adaptive scheduling engine (`pickNextScenario`, `applyResult`,
  `getDrillStats`) is imported by the drill page from `@/utils/drillEngine`,
  a module absent from the repository snapshot; those definitions are
  modelled from the specification and are marked as such.

Times are rational numbers measured in days; ease factors and intervals are
rationals.
-/

namespace AdaptiveTrainer

/-- A scenario record from the catalog, translated from the `ScenarioV2`
shape used by `filterScenarios` in `src/unnamed/part_001` and by the drill
page: an identifier plus classification tags, with `position` optional. -/
structure ScenarioV2 where
  id : String
  sport : String
  level : String
  category : String
  position : Option String
deriving Repr, DecidableEq

/-- Filter criteria, translated from `src/src/types/scenarioFilter.ts`:
each dimension is a list of selected values, an empty list meaning
"no filter" on that dimension. -/
structure ScenarioFilter where
  sports : List String
  levels : List String
  categories : List String
  positions : List String
deriving Repr, DecidableEq

/-- Translated from `createEmptyFilter` in `src/src/types/scenarioFilter.ts`. -/
def createEmptyFilter : ScenarioFilter :=
  { sports := [], levels := [], categories := [], positions := [] }

/-- The per-scenario predicate inside `filterScenarios`
(`src/unnamed/part_001`, lines 19-34): a dimension with selections must be
matched; the position criterion only fires when the scenario carries a
(truthy) position value. -/
def scenarioMatches (filter : ScenarioFilter) (scenario : ScenarioV2) : Bool :=
  if filter.sports.length > 0 && !(filter.sports.contains scenario.sport) then
    false
  else if filter.levels.length > 0 && !(filter.levels.contains scenario.level) then
    false
  else if filter.categories.length > 0 && !(filter.categories.contains scenario.category) then
    false
  else if filter.positions.length > 0 &&
      (match scenario.position with
       | some pos => !(filter.positions.contains pos)
       | none => false) then
    false
  else
    true

/-- Translated from `filterScenarios` in `src/unnamed/part_001`:
keeps the scenarios matching all selected criteria. -/
def filterScenarios (scenarios : List ScenarioV2) (filter : ScenarioFilter) :
    List ScenarioV2 :=
  scenarios.filter (scenarioMatches filter)

/-! ## Session persistence (`src/src/utils/sessionPersistence.ts`)

`loadSessionFromLocalStorage` reads the stored string (if any), runs
`JSON.parse` inside a `try`, validates the parsed value's shape, and returns
either the parsed session or `null`; any exception is caught and turned into
`null`.  We embed the JavaScript runtime behavior the function relies on:
a type of JavaScript values, truthiness, property access (which throws on
`null`/`undefined` receivers), and the `typeof ... === 'object'` test.  The
`localStorage.getItem` result and the `JSON.parse` partial function are
explicit inputs. -/

/-- A JavaScript runtime value, as far as `loadSessionFromLocalStorage`
inspects one: `JSON.parse` can produce null, booleans, numbers, strings,
arrays and objects; property access on a non-object yields `undefined`. -/
inductive JsValue where
  | nullV : JsValue
  | undefinedV : JsValue
  | boolV : Bool → JsValue
  | numV : ℚ → JsValue
  | strV : String → JsValue
  | arrV : List JsValue → JsValue
  | objV : List (String × JsValue) → JsValue
deriving Repr

/-- JavaScript truthiness: `undefined`, `null`, `false`, `0` and `""` are
falsy; every object, array, nonzero number, nonempty string and `true` is
truthy. -/
def JsValue.truthy : JsValue → Bool
  | .nullV => false
  | .undefinedV => false
  | .boolV b => b
  | .numV q => !(q == 0)
  | .strV s => !(s == "")
  | .arrV _ => true
  | .objV _ => true

/-- JavaScript property access `v.k`: throws (`none`) when the receiver is
`null` or `undefined`; on an object returns the field's value or `undefined`
when absent; on any other value returns `undefined` (the named properties
checked by the validator do not exist on primitives or arrays). -/
def JsValue.getProp : JsValue → String → Option JsValue
  | .nullV, _ => none
  | .undefinedV, _ => none
  | .objV fields, k => some ((fields.lookup k).getD .undefinedV)
  | _, _ => some .undefinedV

/-- The JavaScript test `typeof v === 'object'`: true exactly for objects,
arrays and `null`. -/
def JsValue.typeofObject : JsValue → Bool
  | .objV _ => true
  | .arrV _ => true
  | .nullV => true
  | _ => false

/-- Translated from `loadSessionFromLocalStorage` in
`src/src/utils/sessionPersistence.ts` (lines 22-45).  `stored` is the result
of `localStorage.getItem(STORAGE_KEY)` (`none` for a missing key) and
`parse` models `JSON.parse` (`none` when parsing throws).  The body mirrors
the source: a falsy stored string returns `null`; a parse failure is caught
and returns `null`; the parsed value must have truthy `id`, `createdAt` and
`updatedAt` fields and an `object`-typed `progress` field, else `null`;
property access throwing (parsed `null`) is caught by the surrounding `try`
and also returns `null`; otherwise the parsed session is returned unchanged.
The source's `!session.id || !session.createdAt || !session.updatedAt ||
typeof session.progress !== 'object'` evaluates left to right with
short-circuiting, which the nested matches below mirror: each property
access may throw (the `none` arm, caught into `null`) and each falsy check
returns `null` before the next access happens. -/
def loadSessionFromLocalStorage (stored : Option String)
    (parse : String → Option JsValue) : Option JsValue :=
  match stored with
  | none => none
  | some s =>
    if !(JsValue.strV s).truthy then none
    else
      match parse s with
      | none => none
      | some session =>
        match session.getProp "id" with
        | none => none
        | some idv =>
          if !idv.truthy then none
          else
            match session.getProp "createdAt" with
            | none => none
            | some cav =>
              if !cav.truthy then none
              else
                match session.getProp "updatedAt" with
                | none => none
                | some uav =>
                  if !uav.truthy then none
                  else
                    match session.getProp "progress" with
                    | none => none
                    | some pv =>
                      if !pv.typeofObject then none
                      else some session

/-! ## The adaptive scheduling engine

The drill page (`src/unnamed/part_005`) imports `pickNextScenario`,
`applyResult` and `getDrillStats` from `@/utils/drillEngine`, together with
the `DrillSession` type from `@/types/drillSession`; neither module is in
the repository snapshot, so the engine below is modelled from the
specification (sections 3, 4.1, 4.2, 4.3).  The spec leaves the exact
numeric constants open ("must be chosen deliberately and documented as
fixed constants"); the values below follow the spec's examples: ease seed
1.3 (the drill page's default `averageEase`), ease floor 1.3, ease ceiling
2.5, best bonus +0.1, ok nudge −0.05, bad penalty −0.2, timeout penalty
−0.25 (at least as large as bad's), bootstrap intervals 1 day then 3 days,
and an interval seed of 1/24 day (a fraction of a day, so a reset item is
due almost immediately). -/

/-- Modelled from the spec: the four outcome qualities (glossary and
section 4.2) as a closed variant, the representation the spec itself
recommends in section 9. -/
inductive Quality where
  | best : Quality
  | ok : Quality
  | bad : Quality
  | timeout : Quality
deriving Repr, DecidableEq

/-- Modelled from the spec: the caller passes the quality as one of the four
strings (the drill page's `handleAnswer` uses string literals); any other
string is unrecognized. -/
def parseQuality (q : String) : Option Quality :=
  if q = "best" then some Quality.best
  else if q = "ok" then some Quality.ok
  else if q = "bad" then some Quality.bad
  else if q = "timeout" then some Quality.timeout
  else none

/-- Modelled from the spec: documented fixed constant — seed ease factor. -/
def easeSeed : ℚ := 13 / 10

/-- Modelled from the spec: documented fixed constant — the ease floor
(ease never drops below it). -/
def easeFloor : ℚ := 13 / 10

/-- Modelled from the spec: documented fixed constant — the ease ceiling
(ease never rises above it). -/
def easeCeiling : ℚ := 5 / 2

/-- Modelled from the spec: documented fixed constant — seed minimal
interval in days (a fraction of a day; a reset item is due almost
immediately). -/
def intervalSeed : ℚ := 1 / 24

/-- Modelled from the spec (`ScenarioProgress`, section 3): one progress
record per attempted scenario, owned by the session.  The `partial` tally is
named `partialTally` here.  Times are rationals in days. -/
structure ScenarioProgress where
  scenarioId : String
  correct : Nat
  incorrect : Nat
  partialTally : Nat
  timeouts : Nat
  repetitions : Nat
  interval : ℚ
  ease : ℚ
  nextDue : ℚ
  lastShown : Option ℚ
  lastAnswer : Option Quality
deriving Repr, DecidableEq

/-- Modelled from the spec (`Session`, section 3): identity and audit
fields plus the progress mapping, represented as a list of records with
unique `scenarioId` keys. -/
structure DrillSession where
  id : String
  createdAt : ℚ
  updatedAt : ℚ
  progress : List ScenarioProgress
deriving Repr, DecidableEq

/-- Look up the progress record for a scenario id in a session. -/
def findProgress (s : DrillSession) (scenarioId : String) :
    Option ScenarioProgress :=
  s.progress.find? (fun p => p.scenarioId = scenarioId)

/-- Modelled from the spec (section 4.2): the seed-default progress record
created lazily on the first answer for a scenario (repetitions 0, seed ease
and interval, all tallies zero, due immediately). -/
def seedProgress (scenarioId : String) (now : ℚ) : ScenarioProgress :=
  { scenarioId := scenarioId
    correct := 0
    incorrect := 0
    partialTally := 0
    timeouts := 0
    repetitions := 0
    interval := intervalSeed
    ease := easeSeed
    nextDue := now
    lastShown := none
    lastAnswer := none }

/-- Modelled from the spec (update rule, section 4.2): the per-quality
update of one progress record at time `now`.

* best: `correct += 1`; `repetitions += 1`; ease `+0.1` capped at the
  ceiling; interval 1 day on the first repetition, 3 days on the second,
  then previous interval times the new ease; `nextDue = now + interval`.
* ok: `partial += 1`; `repetitions += 1`; ease nudged down by `0.05`
  respecting the floor; interval grows by the smaller factor
  `max (ease − 0.3) 1`; `nextDue = now + interval`.
* bad: `incorrect += 1`; repetitions reset to 0; ease `−0.2` respecting the
  floor; interval reset to the seed minimal value; `nextDue = now + interval`.
* timeout: `timeouts += 1`; repetitions reset to 0; ease `−0.25` respecting
  the floor; interval reset to the seed minimal value;
  `nextDue = now + interval`.

Every branch records `lastShown = now` and `lastAnswer = quality`. -/
def updateProgress (q : Quality) (p : ScenarioProgress) (now : ℚ) :
    ScenarioProgress :=
  match q with
  | Quality.best =>
    let reps := p.repetitions + 1
    let newEase := min (p.ease + 1 / 10) easeCeiling
    let newInterval :=
      if reps = 1 then 1 else if reps = 2 then 3 else p.interval * newEase
    { p with
      correct := p.correct + 1
      repetitions := reps
      ease := newEase
      interval := newInterval
      nextDue := now + newInterval
      lastShown := some now
      lastAnswer := some Quality.best }
  | Quality.ok =>
    let newEase := max (p.ease - 1 / 20) easeFloor
    let newInterval := p.interval * max (newEase - 3 / 10) 1
    { p with
      partialTally := p.partialTally + 1
      repetitions := p.repetitions + 1
      ease := newEase
      interval := newInterval
      nextDue := now + newInterval
      lastShown := some now
      lastAnswer := some Quality.ok }
  | Quality.bad =>
    let newEase := max (p.ease - 1 / 5) easeFloor
    { p with
      incorrect := p.incorrect + 1
      repetitions := 0
      ease := newEase
      interval := intervalSeed
      nextDue := now + intervalSeed
      lastShown := some now
      lastAnswer := some Quality.bad }
  | Quality.timeout =>
    let newEase := max (p.ease - 1 / 4) easeFloor
    { p with
      timeouts := p.timeouts + 1
      repetitions := 0
      ease := newEase
      interval := intervalSeed
      nextDue := now + intervalSeed
      lastShown := some now
      lastAnswer := some Quality.timeout }

/-- Replace the first record with the given record's `scenarioId`, or append
the record if no record carries that id. -/
def upsertProgress : List ScenarioProgress → ScenarioProgress →
    List ScenarioProgress
  | [], p => [p]
  | q :: rest, p =>
    if q.scenarioId = p.scenarioId then p :: rest
    else q :: upsertProgress rest p

/-- Modelled from the spec (`applyResult`, section 4.2 and the error-handling
design, section 7): given a session, a scenario id, the answer quality as a
string and the current time, rejects an unrecognized quality as an invalid
input; otherwise fetches or lazily creates the scenario's progress record,
applies the update rule, stores the record back and advances `updatedAt`. -/
def applyResult (s : DrillSession) (scenarioId : String) (quality : String)
    (now : ℚ) : Except String DrillSession :=
  match parseQuality quality with
  | none => Except.error ("applyResult: unrecognized quality " ++ quality)
  | some q =>
    let p :=
      match findProgress s scenarioId with
      | some p => p
      | none => seedProgress scenarioId now
    let updated := updateProgress q p now
    Except.ok
      { s with
        progress := upsertProgress s.progress updated
        updatedAt := now }

/-- Modelled from the spec (section 4.1, steps 1 and 3): the attempted
catalog scenarios that are due (`nextDue ≤ now`), paired with their
progress records, in catalog order. -/
def dueAttempted (catalog : List ScenarioV2) (s : DrillSession) (now : ℚ) :
    List (ScenarioV2 × ScenarioProgress) :=
  catalog.filterMap (fun sc =>
    match findProgress s sc.id with
    | some p => if p.nextDue ≤ now then some (sc, p) else none
    | none => none)

/-- Modelled from the spec (section 4.1, step 4): the strict selection
order among due attempted scenarios — earlier `nextDue` wins, ties broken
by lower `ease`. -/
def lexBetter (a b : ScenarioV2 × ScenarioProgress) : Prop :=
  a.2.nextDue < b.2.nextDue ∨
    (a.2.nextDue = b.2.nextDue ∧ a.2.ease < b.2.ease)

instance (a b : ScenarioV2 × ScenarioProgress) : Decidable (lexBetter a b) := by
  unfold lexBetter
  infer_instance

/-- Pick the minimum of a list of due candidates under `lexBetter`,
keeping the earliest catalog entry on full ties. -/
def pickBestDue : List (ScenarioV2 × ScenarioProgress) →
    Option (ScenarioV2 × ScenarioProgress)
  | [] => none
  | x :: xs =>
    match pickBestDue xs with
    | none => some x
    | some y => if lexBetter y x then some y else some x

/-- Modelled from the spec (`pickNextScenario`, section 4.1): return the
first never-attempted catalog scenario in catalog order; failing that, the
due attempted scenario with the earliest `nextDue` (ties broken by lowest
`ease`); `none` when the eligible pool is empty. -/
def pickNextScenario (catalog : List ScenarioV2) (s : DrillSession)
    (now : ℚ) : Option ScenarioV2 :=
  match catalog.find? (fun sc => (findProgress s sc.id).isNone) with
  | some sc => some sc
  | none => (pickBestDue (dueAttempted catalog s now)).map Prod.fst

/-- Modelled from the spec (`getDrillStats`, section 4.3): the summary
statistics derived from the session's progress records. -/
structure DrillStats where
  correctRate : ℚ
  scenariosSeen : Nat
  totalAttempts : Nat
  averageEase : ℚ
  averageInterval : ℚ
deriving Repr, DecidableEq

/-- The four tallies of one record summed. -/
def attemptsOf (p : ScenarioProgress) : Nat :=
  p.correct + p.incorrect + p.partialTally + p.timeouts

/-- Modelled from the spec (`getDrillStats`, section 4.3): a pure read-only
function over catalog and session; `correctRate` is total correct over
total attempts (0 when there are no attempts), `scenariosSeen` the number
of progress records, `totalAttempts` the sum of all four tallies, and the
averages are means over the progress records (ease defaulting to the seed
when there are none). -/
def getDrillStats (catalog : List ScenarioV2) (s : DrillSession) :
    DrillStats :=
  let recs := s.progress
  let totalCorrect := (recs.map (fun p => p.correct)).sum
  let total := (recs.map attemptsOf).sum
  { correctRate := if total = 0 then 0 else (totalCorrect : ℚ) / (total : ℚ)
    scenariosSeen := recs.length
    totalAttempts := total
    averageEase :=
      if recs.length = 0 then easeSeed
      else (recs.map (fun p => p.ease)).sum / (recs.length : ℚ)
    averageInterval :=
      if recs.length = 0 then 0
      else (recs.map (fun p => p.interval)).sum / (recs.length : ℚ) }

/-! ## Helper lemmas -/

/-- `List.find?` returns the first element satisfying the predicate:
the list splits around the result, with every earlier element failing. -/
lemma find?_first {α : Type} (p : α → Bool) :
    ∀ (l : List α) (a : α), l.find? p = some a →
      ∃ l1 l2, l = l1 ++ a :: l2 ∧ p a = true ∧ ∀ x ∈ l1, p x = false := by
  intro l
  induction l with
  | nil => intro a h; simp [List.find?] at h
  | cons b l ih =>
    intro a h
    by_cases hb : p b = true
    · rw [List.find?_cons_of_pos _ hb] at h
      refine ⟨[], l, ?_, ?_, ?_⟩
      · simp [(Option.some.injEq _ _).mp h]
      · rw [← (Option.some.injEq _ _).mp h]; exact hb
      · intro x hx; simp at hx
    · rw [List.find?_cons_of_neg _ hb] at h
      obtain ⟨l1, l2, hl, hpa, hprev⟩ := ih a h
      refine ⟨b :: l1, l2, by rw [hl]; rfl, hpa, ?_⟩
      intro x hx
      rcases List.mem_cons.mp hx with hx | hx
      · rw [hx]; exact Bool.not_eq_true _ ▸ (by simpa using hb)
      · exact hprev x hx

/-- A record found by `findProgress s id` carries `scenarioId = id`. -/
lemma findProgress_some_id (s : DrillSession) (id : String)
    (p : ScenarioProgress) (h : findProgress s id = some p) :
    p.scenarioId = id := by
  have := List.find?_some h
  simpa using this

/-- After an upsert, looking up the upserted record's key finds exactly the
new record. -/
lemma find?_upsertProgress (p : ScenarioProgress) :
    ∀ l : List ScenarioProgress,
      (upsertProgress l p).find? (fun q => q.scenarioId = p.scenarioId)
        = some p := by
  intro l
  induction l with
  | nil =>
    simp [upsertProgress, List.find?]
  | cons q rest ih =>
    by_cases hq : q.scenarioId = p.scenarioId
    · simp [upsertProgress, hq, List.find?]
    · simp only [upsertProgress, if_neg hq]
      rw [List.find?_cons_of_neg _ (by simpa using hq)]
      exact ih

/-- Every member of an upserted list is the new record or an old member. -/
lemma mem_upsertProgress (p x : ScenarioProgress) :
    ∀ l : List ScenarioProgress,
      x ∈ upsertProgress l p → x = p ∨ x ∈ l := by
  intro l
  induction l with
  | nil => intro h; simpa [upsertProgress] using h
  | cons q rest ih =>
    intro h
    by_cases hq : q.scenarioId = p.scenarioId
    · simp only [upsertProgress, if_pos hq] at h
      rcases List.mem_cons.mp h with h | h
      · exact Or.inl h
      · exact Or.inr (List.mem_cons.mpr (Or.inr h))
    · simp only [upsertProgress, if_neg hq] at h
      rcases List.mem_cons.mp h with h | h
      · exact Or.inr (List.mem_cons.mpr (Or.inl h))
      · rcases ih h with h | h
        · exact Or.inl h
        · exact Or.inr (List.mem_cons.mpr (Or.inr h))

/-- `updateProgress` never changes the record's key. -/
lemma updateProgress_scenarioId (q : Quality) (p : ScenarioProgress)
    (now : ℚ) : (updateProgress q p now).scenarioId = p.scenarioId := by
  cases q <;> rfl

/-- The progress record `applyResult` starts from: the existing record or
the lazily created seed. -/
def baseProgress (s : DrillSession) (scenarioId : String) (now : ℚ) :
    ScenarioProgress :=
  match findProgress s scenarioId with
  | some p => p
  | none => seedProgress scenarioId now

/-- On a recognized quality, `applyResult` succeeds and its result is the
session with the updated record upserted and `updatedAt` advanced. -/
lemma applyResult_ok_shape (s : DrillSession) (scenarioId : String)
    (qs : String) (now : ℚ) (q : Quality) (hq : parseQuality qs = some q) :
    applyResult s scenarioId qs now = Except.ok
      { s with
        progress := upsertProgress s.progress
          (updateProgress q (baseProgress s scenarioId now) now)
        updatedAt := now } := by
  unfold applyResult baseProgress
  rw [hq]

/-- The base progress record carries the requested key. -/
lemma baseProgress_scenarioId (s : DrillSession) (scenarioId : String)
    (now : ℚ) : (baseProgress s scenarioId now).scenarioId = scenarioId := by
  unfold baseProgress
  cases h : findProgress s scenarioId with
  | none => rfl
  | some p => exact findProgress_some_id s scenarioId p h

/-- After a successful `applyResult`, looking up the scenario finds the
updated record. -/
lemma findProgress_after_apply (s : DrillSession) (scenarioId : String)
    (qs : String) (now : ℚ) (q : Quality) (hq : parseQuality qs = some q)
    (s1 : DrillSession) (h : applyResult s scenarioId qs now = Except.ok s1) :
    findProgress s1 scenarioId
      = some (updateProgress q (baseProgress s scenarioId now) now) := by
  rw [applyResult_ok_shape s scenarioId qs now q hq] at h
  have hs1 := (Except.ok.injEq _ _).mp h
  rw [← hs1]
  show (upsertProgress s.progress _).find? _ = _
  have hid : (updateProgress q (baseProgress s scenarioId now) now).scenarioId
      = scenarioId := by
    rw [updateProgress_scenarioId, baseProgress_scenarioId]
  calc (upsertProgress s.progress
          (updateProgress q (baseProgress s scenarioId now) now)).find?
          (fun p => p.scenarioId = scenarioId)
      = (upsertProgress s.progress
          (updateProgress q (baseProgress s scenarioId now) now)).find?
          (fun p => p.scenarioId
            = (updateProgress q (baseProgress s scenarioId now) now).scenarioId) := by
        rw [hid]
    _ = some (updateProgress q (baseProgress s scenarioId now) now) :=
        find?_upsertProgress _ s.progress

/-- The selection order is irreflexive. -/
lemma lexBetter_irrefl (a : ScenarioV2 × ScenarioProgress) :
    ¬ lexBetter a a := by
  unfold lexBetter
  push_neg
  exact ⟨le_refl _, fun _ => le_refl _⟩

/-- The selection order is asymmetric. -/
lemma lexBetter_asymm (a b : ScenarioV2 × ScenarioProgress)
    (h : lexBetter a b) : ¬ lexBetter b a := by
  unfold lexBetter at h ⊢
  push_neg
  rcases h with h | ⟨heq, hlt⟩
  · exact ⟨le_of_lt h, fun he => absurd (he ▸ h) (lt_irrefl _)⟩
  · exact ⟨le_of_eq heq, fun _ => le_of_lt hlt⟩

/-- Failing to beat is transitive: if `c` does not beat `b` and `b` does
not beat `a`, then `c` does not beat `a`. -/
lemma not_lexBetter_trans (a b c : ScenarioV2 × ScenarioProgress)
    (hcb : ¬ lexBetter c b) (hba : ¬ lexBetter b a) : ¬ lexBetter c a := by
  unfold lexBetter at hcb hba ⊢
  push_neg at hcb hba ⊢
  obtain ⟨hcb1, hcb2⟩ := hcb
  obtain ⟨hba1, hba2⟩ := hba
  constructor
  · linarith
  · intro he
    have h1 : b.2.nextDue = a.2.nextDue := le_antisymm (by linarith) hba1
    have h2 : c.2.nextDue = b.2.nextDue := by rw [he, ← h1]
    have := hcb2 h2
    have := hba2 h1
    linarith

/-- `pickBestDue` returns `none` only on the empty list. -/
lemma pickBestDue_eq_none (l : List (ScenarioV2 × ScenarioProgress))
    (h : pickBestDue l = none) : l = [] := by
  cases l with
  | nil => rfl
  | cons x xs =>
    exfalso
    unfold pickBestDue at h
    split at h
    · exact Option.noConfusion h
    · split at h <;> exact Option.noConfusion h

/-- `pickBestDue` returns a member of its input. -/
lemma pickBestDue_mem :
    ∀ (l : List (ScenarioV2 × ScenarioProgress)) (x : ScenarioV2 × ScenarioProgress),
      pickBestDue l = some x → x ∈ l := by
  intro l
  induction l with
  | nil => intro x h; simp [pickBestDue] at h
  | cons a l ih =>
    intro x h
    unfold pickBestDue at h
    split at h
    · exact List.mem_cons.mpr (Or.inl ((Option.some.injEq _ _).mp h).symm)
    · rename_i y hl
      split at h
      · have hyx : y = x := (Option.some.injEq _ _).mp h
        exact List.mem_cons.mpr (Or.inr (hyx ▸ ih y hl))
      · exact List.mem_cons.mpr (Or.inl ((Option.some.injEq _ _).mp h).symm)

/-- No member of the input beats the element `pickBestDue` returns. -/
lemma pickBestDue_min :
    ∀ (l : List (ScenarioV2 × ScenarioProgress)) (x : ScenarioV2 × ScenarioProgress),
      pickBestDue l = some x → ∀ y ∈ l, ¬ lexBetter y x := by
  intro l
  induction l with
  | nil => intro x h; simp [pickBestDue] at h
  | cons a l ih =>
    intro x h y hy
    unfold pickBestDue at h
    split at h
    · rename_i hl
      have hxa : a = x := (Option.some.injEq _ _).mp h
      have hnil : l = [] := pickBestDue_eq_none l hl
      rcases List.mem_cons.mp hy with hy | hy
      · rw [hy, ← hxa]; exact lexBetter_irrefl a
      · rw [hnil] at hy; simp at hy
    · rename_i y0 hl
      split at h
      · rename_i hb
        have hx : y0 = x := (Option.some.injEq _ _).mp h
        rcases List.mem_cons.mp hy with hy | hy
        · rw [hy, ← hx]
          exact lexBetter_asymm y0 a hb
        · rw [← hx]; exact ih y0 hl y hy
      · rename_i hb
        have hx : a = x := (Option.some.injEq _ _).mp h
        rcases List.mem_cons.mp hy with hy | hy
        · rw [hy, ← hx]; exact lexBetter_irrefl a
        · rw [← hx]
          exact not_lexBetter_trans a y0 y (ih y0 hl y hy) hb

/-- Membership in the due-attempted pool: exactly the catalog scenarios
whose progress record exists and is due. -/
lemma mem_dueAttempted (catalog : List ScenarioV2) (s : DrillSession)
    (now : ℚ) (sc : ScenarioV2) (p : ScenarioProgress) :
    (sc, p) ∈ dueAttempted catalog s now ↔
      sc ∈ catalog ∧ findProgress s sc.id = some p ∧ p.nextDue ≤ now := by
  unfold dueAttempted
  rw [List.mem_filterMap]
  constructor
  · rintro ⟨a, ha, hf⟩
    split at hf
    · rename_i q hfa
      split at hf
      · rename_i hd
        have hpair := (Option.some.injEq _ _).mp hf
        rw [Prod.mk.injEq] at hpair
        obtain ⟨h1, h2⟩ := hpair
        rw [← h1, ← h2]
        exact ⟨ha, hfa, hd⟩
      · exact Option.noConfusion hf
    · exact Option.noConfusion hf
  · rintro ⟨hmem, hf, hd⟩
    refine ⟨sc, hmem, ?_⟩
    rw [hf]
    dsimp only
    rw [if_pos hd]

/-- One update step never drives ease below the floor. -/
lemma updateProgress_ease_floor (q : Quality) (p : ScenarioProgress)
    (now : ℚ) (h : easeFloor ≤ p.ease) :
    easeFloor ≤ (updateProgress q p now).ease := by
  cases q with
  | best =>
    show easeFloor ≤ min (p.ease + 1 / 10) easeCeiling
    refine le_min (by linarith) ?_
    unfold easeFloor easeCeiling
    norm_num
  | ok => exact le_max_right _ _
  | bad => exact le_max_right _ _
  | timeout => exact le_max_right _ _

/-- The scenario predicate inside `filterScenarios`, characterized:
a scenario passes exactly when each dimension with selections is matched,
where the position dimension is also passed by a scenario carrying no
position. -/
lemma scenarioMatches_iff (f : ScenarioFilter) (sc : ScenarioV2) :
    scenarioMatches f sc = true ↔
      (f.sports = [] ∨ sc.sport ∈ f.sports) ∧
      (f.levels = [] ∨ sc.level ∈ f.levels) ∧
      (f.categories = [] ∨ sc.category ∈ f.categories) ∧
      (f.positions = [] ∨ sc.position = none ∨
        ∃ pos, sc.position = some pos ∧ pos ∈ f.positions) := by
  unfold scenarioMatches
  cases hp : sc.position with
  | none =>
    simp only [hp]
    split_ifs with h1 h2 h3 h4 <;>
      simp_all [List.length_pos, List.contains] <;> tauto
  | some pos =>
    simp only [hp]
    split_ifs with h1 h2 h3 h4 <;>
      simp_all [List.length_pos, List.contains] <;> tauto

/-! ## Claim theorems -/

/-- C1: for every catalog containing at least one never-attempted scenario
(no progress record in the session) and at least one attempted scenario that
is due (`nextDue ≤ now`), `pickNextScenario` returns a never-attempted
scenario, and specifically the first never-attempted one in catalog order
(the catalog splits as `l1 ++ sc :: l2` with every scenario of `l1`
attempted). -/
theorem pickNextScenario_prefers_never_attempted
    (catalog : List ScenarioV2) (s : DrillSession) (now : ℚ)
    (h1 : ∃ sc ∈ catalog, findProgress s sc.id = none)
    (h2 : ∃ sc ∈ catalog, ∃ p, findProgress s sc.id = some p ∧
      p.nextDue ≤ now) :
    ∃ sc l1 l2, pickNextScenario catalog s now = some sc ∧
      findProgress s sc.id = none ∧ catalog = l1 ++ sc :: l2 ∧
      ∀ x ∈ l1, (findProgress s x.id).isSome = true := by
  obtain ⟨sc0, hmem, hnone⟩ := h1
  have hsome :
      (catalog.find? (fun sc => (findProgress s sc.id).isNone)).isSome := by
    rw [List.find?_isSome]
    exact ⟨sc0, hmem, by rw [hnone]; rfl⟩
  obtain ⟨sc, hfind⟩ := Option.isSome_iff_exists.mp hsome
  obtain ⟨l1, l2, hsplit, hpa, hprev⟩ := find?_first _ catalog sc hfind
  refine ⟨sc, l1, l2, ?_, ?_, hsplit, ?_⟩
  · unfold pickNextScenario
    rw [hfind]
  · exact Option.isNone_iff_eq_none.mp (by simpa using hpa)
  · intro x hx
    have hfalse := hprev x hx
    cases hfx : findProgress s x.id with
    | none => rw [hfx] at hfalse; simp at hfalse
    | some p => rfl

/-- C2: for every catalog and session in which every catalog scenario has a
progress record and at least one is due, `pickNextScenario` returns a due
scenario whose `nextDue` is earliest among the due ones, with ties on
`nextDue` broken by the lowest `ease`. -/
theorem pickNextScenario_earliest_due
    (catalog : List ScenarioV2) (s : DrillSession) (now : ℚ)
    (hall : ∀ sc ∈ catalog, (findProgress s sc.id).isSome = true)
    (hdue : ∃ sc ∈ catalog, ∃ p, findProgress s sc.id = some p ∧
      p.nextDue ≤ now) :
    ∃ sc p, pickNextScenario catalog s now = some sc ∧
      findProgress s sc.id = some p ∧ p.nextDue ≤ now ∧
      ∀ sc' ∈ catalog, ∀ p', findProgress s sc'.id = some p' →
        p'.nextDue ≤ now →
        p.nextDue ≤ p'.nextDue ∧
          (p.nextDue = p'.nextDue → p.ease ≤ p'.ease) := by
  have hfindnone :
      catalog.find? (fun sc => (findProgress s sc.id).isNone) = none := by
    rw [List.find?_eq_none]
    intro x hx
    obtain ⟨p, hp⟩ := Option.isSome_iff_exists.mp (hall x hx)
    rw [hp]
    simp
  obtain ⟨sc0, h0mem, p0, hp0, hd0⟩ := hdue
  have hmem0 : (sc0, p0) ∈ dueAttempted catalog s now :=
    (mem_dueAttempted catalog s now sc0 p0).mpr ⟨h0mem, hp0, hd0⟩
  cases hpb : pickBestDue (dueAttempted catalog s now) with
  | none =>
    exfalso
    rw [pickBestDue_eq_none _ hpb] at hmem0
    simp at hmem0
  | some x =>
    obtain ⟨sc, p⟩ := x
    have hx := (mem_dueAttempted catalog s now sc p).mp
      (pickBestDue_mem _ (sc, p) hpb)
    refine ⟨sc, p, ?_, hx.2.1, hx.2.2, ?_⟩
    · unfold pickNextScenario
      rw [hfindnone, hpb]
      rfl
    · intro sc' hsc' p' hp' hd'
      have hmem' : (sc', p') ∈ dueAttempted catalog s now :=
        (mem_dueAttempted catalog s now sc' p').mpr ⟨hsc', hp', hd'⟩
      have hnb := pickBestDue_min _ (sc, p) hpb (sc', p') hmem'
      unfold lexBetter at hnb
      push_neg at hnb
      exact ⟨hnb.1, fun he => hnb.2 he.symm⟩

/-- C3: after `applyResult` with quality `"bad"` or `"timeout"`, the
scenario's progress record has `interval` equal to the seed minimal value
(regardless of how large it was before) and `repetitions` equal to 0. -/
theorem applyResult_bad_timeout_resets
    (s : DrillSession) (scenarioId : String) (now : ℚ) (quality : String)
    (h : quality = "bad" ∨ quality = "timeout") :
    ∃ s1 p1, applyResult s scenarioId quality now = Except.ok s1 ∧
      findProgress s1 scenarioId = some p1 ∧
      p1.interval = intervalSeed ∧ p1.repetitions = 0 := by
  rcases h with h | h <;> subst h
  · have hq : parseQuality "bad" = some Quality.bad := rfl
    have hshape := applyResult_ok_shape s scenarioId "bad" now Quality.bad hq
    exact ⟨_, updateProgress Quality.bad (baseProgress s scenarioId now) now,
      hshape,
      findProgress_after_apply s scenarioId "bad" now Quality.bad hq _ hshape,
      rfl, rfl⟩
  · have hq : parseQuality "timeout" = some Quality.timeout := rfl
    have hshape := applyResult_ok_shape s scenarioId "timeout" now
      Quality.timeout hq
    exact ⟨_,
      updateProgress Quality.timeout (baseProgress s scenarioId now) now,
      hshape,
      findProgress_after_apply s scenarioId "timeout" now Quality.timeout hq
        _ hshape,
      rfl, rfl⟩

/-- C4: the ease floor is an invariant of `applyResult` — if every progress
record of the session has `ease ≥` the floor, then after any `applyResult`
call (any quality string, hence in particular arbitrarily many repeated
"bad"/"timeout" outcomes) every progress record still has `ease ≥` the
floor. -/
theorem applyResult_preserves_ease_floor
    (s : DrillSession) (scenarioId quality : String) (now : ℚ)
    (s1 : DrillSession)
    (hall : ∀ p ∈ s.progress, easeFloor ≤ p.ease)
    (h : applyResult s scenarioId quality now = Except.ok s1) :
    ∀ p ∈ s1.progress, easeFloor ≤ p.ease := by
  cases hq : parseQuality quality with
  | none =>
    unfold applyResult at h
    rw [hq] at h
    exact Except.noConfusion h
  | some q =>
    rw [applyResult_ok_shape s scenarioId quality now q hq] at h
    have hs1 := (Except.ok.injEq _ _).mp h
    rw [← hs1]
    intro p hp
    rcases mem_upsertProgress _ p s.progress hp with hpe | hpm
    · rw [hpe]
      apply updateProgress_ease_floor
      unfold baseProgress
      cases hf : findProgress s scenarioId with
      | some p0 => exact hall p0 (List.mem_of_find?_eq_some hf)
      | none => exact le_refl _
    · exact hall p hpm

/-- On a session where the scenario already has a progress record,
`applyResult "best"` succeeds and the record becomes the best-update of the
old record. -/
lemma applyResult_best_step (s : DrillSession) (scenarioId : String)
    (now : ℚ) (p0 : ScenarioProgress)
    (hfind : findProgress s scenarioId = some p0) :
    ∃ s1, applyResult s scenarioId "best" now = Except.ok s1 ∧
      findProgress s1 scenarioId
        = some (updateProgress Quality.best p0 now) := by
  have hq : parseQuality "best" = some Quality.best := rfl
  have hbase : baseProgress s scenarioId now = p0 := by
    unfold baseProgress
    rw [hfind]
  have hshape := applyResult_ok_shape s scenarioId "best" now Quality.best hq
  have hf := findProgress_after_apply s scenarioId "best" now Quality.best hq
    _ hshape
  rw [hbase] at hshape hf
  exact ⟨_, hshape, hf⟩

/-- On a session where the scenario has no progress record yet,
`applyResult "best"` succeeds and the record becomes the best-update of the
seed record. -/
lemma applyResult_fresh_best_step (s : DrillSession) (scenarioId : String)
    (now : ℚ) (hfresh : findProgress s scenarioId = none) :
    ∃ s1, applyResult s scenarioId "best" now = Except.ok s1 ∧
      findProgress s1 scenarioId
        = some (updateProgress Quality.best (seedProgress scenarioId now)
            now) := by
  have hq : parseQuality "best" = some Quality.best := rfl
  have hbase : baseProgress s scenarioId now = seedProgress scenarioId now := by
    unfold baseProgress
    rw [hfresh]
  have hshape := applyResult_ok_shape s scenarioId "best" now Quality.best hq
  have hf := findProgress_after_apply s scenarioId "best" now Quality.best hq
    _ hshape
  rw [hbase] at hshape hf
  exact ⟨_, hshape, hf⟩

/-- C6: on a fresh progress record, `applyResult` with `"best"` at `t0`
yields `repetitions = 1`, `interval = 1` day (the first bootstrap step),
`nextDue = t0 + 1` and `correct = 1`; a second `"best"` yields
`repetitions = 2` and `interval = 3` days (the second bootstrap step); from
the third repetition on the interval grows multiplicatively by the new ease
factor, and every best-branch update sets `nextDue = now + interval`. -/
theorem applyResult_best_bootstrap
    (s : DrillSession) (scenarioId : String) (t0 t1 : ℚ)
    (hfresh : findProgress s scenarioId = none) :
    (∃ s1 p1, applyResult s scenarioId "best" t0 = Except.ok s1 ∧
      findProgress s1 scenarioId = some p1 ∧
      p1.repetitions = 1 ∧ p1.interval = 1 ∧ p1.nextDue = t0 + 1 ∧
      p1.correct = 1 ∧
      ∃ s2 p2, applyResult s1 scenarioId "best" t1 = Except.ok s2 ∧
        findProgress s2 scenarioId = some p2 ∧
        p2.repetitions = 2 ∧ p2.interval = 3) ∧
    (∀ (p : ScenarioProgress) (now : ℚ), 2 ≤ p.repetitions →
      (updateProgress Quality.best p now).interval
        = p.interval * (updateProgress Quality.best p now).ease) ∧
    (∀ (p : ScenarioProgress) (now : ℚ),
      (updateProgress Quality.best p now).nextDue
        = now + (updateProgress Quality.best p now).interval) := by
  obtain ⟨s1, hap1, hf1⟩ := applyResult_fresh_best_step s scenarioId t0 hfresh
  obtain ⟨s2, hap2, hf2⟩ := applyResult_best_step s1 scenarioId t1 _ hf1
  refine ⟨⟨s1, _, hap1, hf1, rfl, rfl, rfl, rfl,
    s2, _, hap2, hf2, rfl, rfl⟩, ?_, ?_⟩
  · intro p now hreps
    simp only [updateProgress]
    rw [if_neg (by omega), if_neg (by omega)]
  · intro p now
    rfl

/-- C5: `pickNextScenario` on an empty catalog returns the "none available"
result, and likewise when every catalog scenario has a progress record with
`nextDue > now`; being a total function into `Option`, it never throws —
this is a normal terminal result, not an error. -/
theorem pickNextScenario_exhausted_none
    (catalog : List ScenarioV2) (s : DrillSession) (now : ℚ)
    (h : ∀ sc ∈ catalog, ∃ p, findProgress s sc.id = some p ∧
      now < p.nextDue) :
    pickNextScenario ([] : List ScenarioV2) s now = none ∧
    pickNextScenario catalog s now = none := by
  constructor
  · rfl
  · have hfind :
        catalog.find? (fun sc => (findProgress s sc.id).isNone) = none := by
      rw [List.find?_eq_none]
      intro x hx
      obtain ⟨p, hp, _⟩ := h x hx
      rw [hp]
      simp
    have hdue : dueAttempted catalog s now = [] := by
      unfold dueAttempted
      rw [List.filterMap_eq_nil_iff]
      intro x hx
      obtain ⟨p, hp, hlt⟩ := h x hx
      rw [hp]
      dsimp only
      rw [if_neg (not_le.mpr hlt)]
    unfold pickNextScenario
    rw [hfind, hdue]
    rfl

/-- C7: `getDrillStats` reports `scenariosSeen` as the number of progress
records, `totalAttempts` as the sum of all four tallies over all records,
and `correctRate` as the summed correct tallies divided by the summed
tallies (0 when that total is 0, and recovering the correct total when
multiplied back); as a pure function of the session it leaves the session
untouched. -/
theorem getDrillStats_contract (catalog : List ScenarioV2)
    (s : DrillSession) (n : Nat)
    (hn : (s.progress.map
      (fun p => p.correct + p.incorrect + p.partialTally + p.timeouts)).sum
        = n) :
    (getDrillStats catalog s).scenariosSeen = s.progress.length ∧
    (getDrillStats catalog s).totalAttempts = n ∧
    (getDrillStats catalog s).correctRate
      = (if n = 0 then 0
         else ((s.progress.map (fun p => p.correct)).sum : ℚ) / (n : ℚ)) ∧
    ((getDrillStats catalog s).correctRate * (n : ℚ)
        = ((s.progress.map (fun p => p.correct)).sum : ℚ) ∨
      (n = 0 ∧ (getDrillStats catalog s).correctRate = 0)) := by
  subst hn
  refine ⟨rfl, rfl, rfl, ?_⟩
  by_cases h0 : (s.progress.map
      (fun p => p.correct + p.incorrect + p.partialTally + p.timeouts)).sum
        = 0
  · refine Or.inr ⟨h0, ?_⟩
    unfold getDrillStats
    dsimp only
    rw [if_pos (by exact h0)]
  · refine Or.inl ?_
    have hrate : (getDrillStats catalog s).correctRate
        = ((s.progress.map (fun p => p.correct)).sum : ℚ)
          / (((s.progress.map
            (fun p => p.correct + p.incorrect + p.partialTally
              + p.timeouts)).sum : Nat) : ℚ) := by
      unfold getDrillStats
      dsimp only
      rw [if_neg (by exact h0)]
      rfl
    rw [hrate]
    have hcast : (((s.progress.map
        (fun p => p.correct + p.incorrect + p.partialTally
          + p.timeouts)).sum : Nat) : ℚ) ≠ 0 := Nat.cast_ne_zero.mpr h0
    exact div_mul_cancel₀ _ hcast

/-- C8: calling `applyResult` with a quality value outside
`{best, ok, bad, timeout}` is rejected as an invalid input — the call
returns an error, never a mutated session, so no tally of any progress
record is changed. -/
theorem applyResult_rejects_unknown_quality
    (s : DrillSession) (scenarioId quality : String) (now : ℚ)
    (h : quality ≠ "best" ∧ quality ≠ "ok" ∧ quality ≠ "bad" ∧
      quality ≠ "timeout") :
    ∃ e, applyResult s scenarioId quality now = Except.error e ∧
      ∀ s1, applyResult s scenarioId quality now ≠ Except.ok s1 := by
  obtain ⟨h1, h2, h3, h4⟩ := h
  have hq : parseQuality quality = none := by
    unfold parseQuality
    rw [if_neg h1, if_neg h2, if_neg h3, if_neg h4]
  refine ⟨"applyResult: unrecognized quality " ++ quality, ?_, ?_⟩
  · unfold applyResult
    rw [hq]
  · intro s1 hcontra
    unfold applyResult at hcontra
    rw [hq] at hcontra
    exact Except.noConfusion hcontra

/-- C9: for every scenario list and every filter whose positions selection
is non-empty, `filterScenarios` still includes every scenario whose position
field is absent (provided the other criteria pass): membership in the result
holds exactly when each of sport, level, category matches whenever its
selection is non-empty, and the position criterion only excludes scenarios
carrying a position outside the selection. -/
theorem filterScenarios_position_optional (scenarios : List ScenarioV2)
    (f : ScenarioFilter) (hpos : f.positions ≠ []) (sc : ScenarioV2) :
    sc ∈ filterScenarios scenarios f ↔
      sc ∈ scenarios ∧
      (f.sports = [] ∨ sc.sport ∈ f.sports) ∧
      (f.levels = [] ∨ sc.level ∈ f.levels) ∧
      (f.categories = [] ∨ sc.category ∈ f.categories) ∧
      (sc.position = none ∨
        ∃ pos, sc.position = some pos ∧ pos ∈ f.positions) := by
  unfold filterScenarios
  rw [List.mem_filter, scenarioMatches_iff]
  constructor
  · rintro ⟨hmem, hs, hl, hc, hp⟩
    rcases hp with hp | hp
    · exact absurd hp hpos
    · exact ⟨hmem, hs, hl, hc, hp⟩
  · rintro ⟨hmem, hs, hl, hc, hp⟩
    exact ⟨hmem, hs, hl, hc, Or.inr hp⟩

/-- C10: `loadSessionFromLocalStorage` never throws — it is a total
function into `Option` — and it returns the parsed session (unchanged)
exactly when a non-empty value was stored, it parses, and the parsed value
has truthy `id`, `createdAt` and `updatedAt` fields and an `object`-typed
`progress` field; in every other case (absent key, unparsable JSON, parsed
value of any other shape — including a parsed `null`, whose property access
throws and is caught) it returns `null`. -/
theorem loadSessionFromLocalStorage_total (stored : Option String)
    (parse : String → Option JsValue) (v : JsValue) :
    loadSessionFromLocalStorage stored parse = some v ↔
      ∃ s, stored = some s ∧ s ≠ "" ∧ parse s = some v ∧
        ∃ idv cav uav pv,
          v.getProp "id" = some idv ∧ idv.truthy = true ∧
          v.getProp "createdAt" = some cav ∧ cav.truthy = true ∧
          v.getProp "updatedAt" = some uav ∧ uav.truthy = true ∧
          v.getProp "progress" = some pv ∧ pv.typeofObject = true := by
  constructor
  · intro h
    cases stored with
    | none => exact Option.noConfusion h
    | some s =>
      unfold loadSessionFromLocalStorage at h
      dsimp only at h
      split at h
      · exact Option.noConfusion h
      · rename_i hst
        have hs : s ≠ "" := by
          intro hcontra
          rw [hcontra] at hst
          exact hst rfl
        split at h
        · exact Option.noConfusion h
        · rename_i session hp
          split at h
          · exact Option.noConfusion h
          · rename_i idv hid
            split at h
            · exact Option.noConfusion h
            · rename_i hidt
              split at h
              · exact Option.noConfusion h
              · rename_i cav hca
                split at h
                · exact Option.noConfusion h
                · rename_i hcat
                  split at h
                  · exact Option.noConfusion h
                  · rename_i uav hua
                    split at h
                    · exact Option.noConfusion h
                    · rename_i huat
                      split at h
                      · exact Option.noConfusion h
                      · rename_i pv hpv
                        split at h
                        · exact Option.noConfusion h
                        · rename_i hpvt
                          have hv : session = v :=
                            (Option.some.injEq _ _).mp h
                          subst hv
                          refine ⟨s, rfl, hs, hp, idv, cav, uav, pv,
                            hid, ?_, hca, ?_, hua, ?_, hpv, ?_⟩
                          · simpa using hidt
                          · simpa using hcat
                          · simpa using huat
                          · simpa using hpvt
  · rintro ⟨s, hst, hs, hp, idv, cav, uav, pv, h1, t1, h2, t2, h3, t3,
      h4, t4⟩
    subst hst
    have hsne : (s == "") = false := beq_eq_false_iff_ne.mpr hs
    unfold loadSessionFromLocalStorage
    dsimp only
    rw [show (!(JsValue.strV s).truthy) = false from by
      show (!(!(s == ""))) = false
      rw [hsne]
      rfl]
    rw [if_neg Bool.false_ne_true, hp]
    dsimp only
    rw [h1]
    dsimp only
    rw [show (!idv.truthy) = false from by rw [t1]; rfl]
    rw [if_neg Bool.false_ne_true, h2]
    dsimp only
    rw [show (!cav.truthy) = false from by rw [t2]; rfl]
    rw [if_neg Bool.false_ne_true, h3]
    dsimp only
    rw [show (!uav.truthy) = false from by rw [t3]; rfl]
    rw [if_neg Bool.false_ne_true, h4]
    dsimp only
    rw [show (!pv.typeofObject) = false from by rw [t4]; rfl]
    rw [if_neg Bool.false_ne_true]

/-! ## Concrete witnesses -/

/-- A sample catalog scenario carrying no position tag. -/
def scenarioA : ScenarioV2 :=
  { id := "A", sport := "baseball", level := "12u", category := "defense",
    position := none }

/-- A sample catalog scenario carrying a position tag. -/
def scenarioB : ScenarioV2 :=
  { id := "B", sport := "baseball", level := "12u",
    category := "baserunning", position := some "catcher" }

/-- A sample progress record for scenario `"A"`, due at time 5. -/
def progressA : ScenarioProgress :=
  { scenarioId := "A", correct := 1, incorrect := 0, partialTally := 0,
    timeouts := 0, repetitions := 1, interval := 1, ease := 13 / 10,
    nextDue := 5, lastShown := some 4, lastAnswer := some Quality.best }

/-- A sample progress record for scenario `"B"`, due at time 7 with a
higher ease. -/
def progressB : ScenarioProgress :=
  { scenarioId := "B", correct := 0, incorrect := 1, partialTally := 0,
    timeouts := 0, repetitions := 0, interval := 1 / 24, ease := 7 / 5,
    nextDue := 7, lastShown := some 6, lastAnswer := some Quality.bad }

/-- A sample session that has attempted only scenario `"A"`. -/
def sessionA : DrillSession :=
  { id := "adaptive-session", createdAt := 0, updatedAt := 4,
    progress := [progressA] }

/-- A sample session that has attempted scenarios `"A"` and `"B"`. -/
def sessionAB : DrillSession :=
  { id := "adaptive-session", createdAt := 0, updatedAt := 6,
    progress := [progressA, progressB] }

/-- The sample position-only filter. -/
def posFilter : ScenarioFilter :=
  { sports := [], levels := [], categories := [], positions := ["pitcher"] }

/-- Witness for C1 at a concrete input: scenario `"B"` is never attempted
while `"A"` is attempted and due, so selection returns the first
never-attempted scenario. -/
theorem pickNextScenario_prefers_never_attempted_witness :
    ∃ sc l1 l2,
      pickNextScenario [scenarioA, scenarioB] sessionA 10 = some sc ∧
      findProgress sessionA sc.id = none ∧
      [scenarioA, scenarioB] = l1 ++ sc :: l2 ∧
      ∀ x ∈ l1, (findProgress sessionA x.id).isSome = true :=
  pickNextScenario_prefers_never_attempted [scenarioA, scenarioB] sessionA 10
    ⟨scenarioB, List.mem_cons_of_mem _ (List.mem_cons_self _ _), rfl⟩
    ⟨scenarioA, List.mem_cons_self _ _, progressA, rfl, by decide⟩

/-- Witness for C2 at a concrete input: both scenarios are attempted and
due at time 10; the record for `"A"` has the earlier `nextDue`. -/
theorem pickNextScenario_earliest_due_witness :
    ∃ sc p, pickNextScenario [scenarioA, scenarioB] sessionAB 10 = some sc ∧
      findProgress sessionAB sc.id = some p ∧ p.nextDue ≤ 10 ∧
      ∀ sc' ∈ [scenarioA, scenarioB], ∀ p',
        findProgress sessionAB sc'.id = some p' → p'.nextDue ≤ 10 →
        p.nextDue ≤ p'.nextDue ∧
          (p.nextDue = p'.nextDue → p.ease ≤ p'.ease) :=
  pickNextScenario_earliest_due [scenarioA, scenarioB] sessionAB 10
    (by decide)
    ⟨scenarioA, List.mem_cons_self _ _, progressA, rfl, by decide⟩

/-- Witness for C3 at a concrete input: a `"bad"` outcome on scenario
`"A"` (whose interval had grown to 1 day) resets interval and
repetitions. -/
theorem applyResult_bad_timeout_resets_witness :
    ∃ s1 p1, applyResult sessionA "A" "bad" 10 = Except.ok s1 ∧
      findProgress s1 "A" = some p1 ∧
      p1.interval = intervalSeed ∧ p1.repetitions = 0 :=
  applyResult_bad_timeout_resets sessionA "A" 10 "bad" (Or.inl rfl)

/-- The session obtained from `sessionA` by a `"timeout"` on scenario
`"A"` at time 10. -/
def sessionATimeout : DrillSession :=
  { sessionA with
    progress := upsertProgress sessionA.progress
      (updateProgress Quality.timeout progressA 10)
    updatedAt := 10 }

/-- Witness for C4 at a concrete input: `sessionA` satisfies the ease
floor, and it still holds after a `"timeout"` on scenario `"A"`. -/
theorem applyResult_preserves_ease_floor_witness :
    easeFloor ≤ (updateProgress Quality.timeout progressA 10).ease :=
  applyResult_preserves_ease_floor sessionA "A" "timeout" 10 sessionATimeout
    (fun p hp => by
      rw [List.mem_singleton.mp hp]
      exact le_refl (13 / 10 : ℚ))
    (by
      have hq : parseQuality "timeout" = some Quality.timeout := rfl
      have h1 := applyResult_ok_shape sessionA "A" "timeout" 10
        Quality.timeout hq
      rw [show baseProgress sessionA "A" 10 = progressA from by
        unfold baseProgress
        rw [show findProgress sessionA "A" = some progressA from rfl]] at h1
      exact h1)
    (updateProgress Quality.timeout progressA 10)
    (List.mem_cons_self _ _)

/-- Witness for C5 at a concrete input: at time 3 the only attempted
scenario is not due until 5, so selection returns "none available", as it
does on the empty catalog. -/
theorem pickNextScenario_exhausted_none_witness :
    pickNextScenario ([] : List ScenarioV2) sessionA 3 = none ∧
    pickNextScenario [scenarioA] sessionA 3 = none :=
  pickNextScenario_exhausted_none [scenarioA] sessionA 3
    (fun sc hsc => by
      rw [List.mem_singleton.mp hsc]
      exact ⟨progressA, rfl, by decide⟩)

/-- Witness for C6 at a concrete input: scenario `"B"` is fresh in
`sessionA`; two `"best"` answers at times 2 and 3 walk the bootstrap
steps. -/
theorem applyResult_best_bootstrap_witness :
    (∃ s1 p1, applyResult sessionA "B" "best" 2 = Except.ok s1 ∧
      findProgress s1 "B" = some p1 ∧
      p1.repetitions = 1 ∧ p1.interval = 1 ∧ p1.nextDue = 2 + 1 ∧
      p1.correct = 1 ∧
      ∃ s2 p2, applyResult s1 "B" "best" 3 = Except.ok s2 ∧
        findProgress s2 "B" = some p2 ∧
        p2.repetitions = 2 ∧ p2.interval = 3) ∧
    (∀ (p : ScenarioProgress) (now : ℚ), 2 ≤ p.repetitions →
      (updateProgress Quality.best p now).interval
        = p.interval * (updateProgress Quality.best p now).ease) ∧
    (∀ (p : ScenarioProgress) (now : ℚ),
      (updateProgress Quality.best p now).nextDue
        = now + (updateProgress Quality.best p now).interval) :=
  applyResult_best_bootstrap sessionA "B" 2 3 rfl

/-- Witness for C7 at a concrete input: `sessionAB` holds two records
with one correct answer out of two attempts. -/
theorem getDrillStats_contract_witness :
    (getDrillStats [scenarioA, scenarioB] sessionAB).scenariosSeen
        = sessionAB.progress.length ∧
    (getDrillStats [scenarioA, scenarioB] sessionAB).totalAttempts = 2 ∧
    (getDrillStats [scenarioA, scenarioB] sessionAB).correctRate
      = (if 2 = 0 then 0
         else ((sessionAB.progress.map (fun p => p.correct)).sum : ℚ)
           / ((2 : Nat) : ℚ)) ∧
    ((getDrillStats [scenarioA, scenarioB] sessionAB).correctRate
          * ((2 : Nat) : ℚ)
        = ((sessionAB.progress.map (fun p => p.correct)).sum : ℚ) ∨
      ((2 : Nat) = 0 ∧
        (getDrillStats [scenarioA, scenarioB] sessionAB).correctRate = 0)) :=
  getDrillStats_contract [scenarioA, scenarioB] sessionAB 2 (by decide)

/-- Witness for C8 at a concrete input: the quality string `"excellent"`
is rejected. -/
theorem applyResult_rejects_unknown_quality_witness :
    ∃ e, applyResult sessionA "A" "excellent" 10 = Except.error e ∧
      ∀ s1, applyResult sessionA "A" "excellent" 10 ≠ Except.ok s1 :=
  applyResult_rejects_unknown_quality sessionA "A" "excellent" 10
    (by refine ⟨?_, ?_, ?_, ?_⟩ <;> decide)

/-- Witness for C9 at a concrete input: with a position filter selected,
the position-less `scenarioA` is still included. -/
theorem filterScenarios_position_optional_witness :
    scenarioA ∈ filterScenarios [scenarioA, scenarioB] posFilter ↔
      scenarioA ∈ [scenarioA, scenarioB] ∧
      (posFilter.sports = [] ∨ scenarioA.sport ∈ posFilter.sports) ∧
      (posFilter.levels = [] ∨ scenarioA.level ∈ posFilter.levels) ∧
      (posFilter.categories = [] ∨
        scenarioA.category ∈ posFilter.categories) ∧
      (scenarioA.position = none ∨
        ∃ pos, scenarioA.position = some pos ∧ pos ∈ posFilter.positions) :=
  filterScenarios_position_optional [scenarioA, scenarioB] posFilter
    (by decide) scenarioA

end AdaptiveTrainer










